import Mathlib

/-!
Shallow embedding of the test-topic selection engine of the halyk-hr-forum
repository, together with proofs about it.

The embedded code comes from `db/utils.py` (`calculate_topics_distribution`,
`generate_test_topics`, `get_test_progress`) and from `main.py`
(`submit_answer`, `start_test`).  Database access is modelled by passing the
fetched rows explicitly and by an explicit `Store` record; Python exceptions
are modelled with `Except`.
-/

/-- `TOTAL_TOPICS = 8` constant from `calculate_topics_distribution`. -/
def TOTAL_TOPICS : Nat := 8

/-- `calculate_topics_distribution` from `db/utils.py`.  The fallback branch
performs the Python integer divisions `8 // n` and `8 % n`, which raise
`ZeroDivisionError` when `n = 0`; this partiality is modelled with `Except`.
The loop `for i in range(remainder): distribution[i] += 1` over the initial
list `[base_topics] * num_competencies` is rendered as a map over
`List.range`. -/
def calculate_topics_distribution (num_competencies : Nat) : Except String (List Nat) :=
  if num_competencies = 4 then
    Except.ok [2, 2, 2, 2]
  else if num_competencies = 5 then
    Except.ok [2, 2, 2, 1, 1]
  else if num_competencies = 6 then
    Except.ok [2, 2, 1, 1, 1, 1]
  else if num_competencies = 0 then
    Except.error "ZeroDivisionError: integer division or modulo by zero"
  else
    let base_topics := TOTAL_TOPICS / num_competencies
    let remainder := TOTAL_TOPICS % num_competencies
    Except.ok ((List.range num_competencies).map
      (fun i => if i < remainder then base_topics + 1 else base_topics))

/-- The fallback allocation as the spec words it: every slot gets
`floor(8/n)` and the first `8 mod n` slots get one extra topic. -/
def spec_fallback_distribution (n : Nat) : List Nat :=
  (List.range n).map (fun i => if i < 8 % n then 8 / n + 1 else 8 / n)

/-- One row of the per-competency statistics query in `get_test_progress`:
`(c.id, c.name, total_questions, answered, correct)`. -/
structure CompStatRow where
  id : Nat
  name : String
  total_questions : Nat
  answered : Nat
  correct : Nat
deriving DecidableEq

/-- One per-competency entry of the `get_test_progress` response. -/
structure CompProgress where
  id : Nat
  name : String
  answered : Nat
  correct : Nat
  total : Nat
deriving DecidableEq

/-- The instance-wide `total` object of the `get_test_progress` response. -/
structure ProgressTotals where
  answered : Nat
  correct : Nat
  total : Nat
deriving DecidableEq

/-- The `get_test_progress` response. -/
structure TestProgress where
  competencies : List CompProgress
  total : ProgressTotals
  current_question_number : Nat
deriving DecidableEq

/-- Body of the aggregation loop in `get_test_progress`: append the
competency entry and add its counters to the running totals. -/
def progress_step (acc : List CompProgress × Nat × Nat × Nat) (r : CompStatRow) :
    List CompProgress × Nat × Nat × Nat :=
  (acc.1 ++ [⟨r.id, r.name, r.answered, r.correct, r.total_questions⟩],
   acc.2.1 + r.answered, acc.2.2.1 + r.correct, acc.2.2.2 + r.total_questions)

/-- `get_test_progress` from `db/utils.py`, taking the two query results as
arguments: `row` is the fetched `current_question_number` (`none` when the
instance row is missing, defaulting to 1) and `competencies_stats` the
per-competency statistics rows. -/
def get_test_progress (row : Option Nat) (competencies_stats : List CompStatRow) : TestProgress :=
  let current_question := match row with
    | some n => n
    | none => 1
  let res := competencies_stats.foldl progress_step ([], 0, 0, 0)
  { competencies := res.1
    total := ⟨res.2.1, res.2.2.1, res.2.2.2⟩
    current_question_number := current_question }

/-- A row of `user_specialization_tests`. -/
structure TestRec where
  id : Nat
  user_id : Nat
  specialization_id : Nat
  current_question_number : Nat
  max_score : Nat
deriving DecidableEq

/-- A row of `test_answers`; `(user_test_id, question_id)` is unique. -/
structure AnswerRec where
  user_test_id : Nat
  question_id : Nat
  user_answer : Nat
  is_correct : Bool
deriving DecidableEq

/-- A row of `questions` (only the field read by `submit_answer`). -/
structure QuestionRec where
  id : Nat
  correct_answer : Nat
deriving DecidableEq

/-- A persisted row of `user_test_topics`. -/
structure SelectedTopicRow where
  user_test_id : Nat
  topic_id : Nat
  competency_id : Nat
  topic_order : Nat
deriving DecidableEq

/-- The database state touched by the embedded endpoints. -/
structure Store where
  tests : List TestRec
  answers : List AnswerRec
  questions : List QuestionRec
  selected_topics : List SelectedTopicRow
  next_test_id : Nat
deriving DecidableEq

/-- `HTTPException(status_code, detail)`. -/
inductive ApiError where
  | http : Nat → String → ApiError
deriving DecidableEq

/-- `submit_answer` from `main.py`.  The test and question lookups become
`find?`; the `INSERT ... ON CONFLICT (user_test_id, question_id) DO NOTHING`
leaves the answer table unchanged when the pair is already present; the final
`UPDATE` writes `current_q + 1` using the counter value read at the start.
A missing question makes the Python code subscript `None`, a `TypeError`
turned into HTTP 500 by the handler. -/
def submit_answer (st : Store) (user_id user_test_id question_id user_answer : Nat) :
    Except ApiError (Store × Bool) :=
  match st.tests.find? (fun t => t.id == user_test_id) with
  | none => Except.error (ApiError.http 403 "Access denied")
  | some t =>
    if t.user_id ≠ user_id then
      Except.error (ApiError.http 403 "Access denied")
    else
      match st.questions.find? (fun q => q.id == question_id) with
      | none => Except.error (ApiError.http 500 "TypeError: NoneType is not subscriptable")
      | some q =>
        let is_correct := user_answer == q.correct_answer
        let new_answers :=
          if st.answers.any
              (fun a => a.user_test_id == user_test_id && a.question_id == question_id) then
            st.answers
          else
            st.answers ++ [⟨user_test_id, question_id, user_answer, is_correct⟩]
        let new_tests := st.tests.map (fun tr =>
          if tr.id == user_test_id then
            { tr with current_question_number := t.current_question_number + 1 }
          else tr)
        Except.ok ({ st with answers := new_answers, tests := new_tests }, is_correct)

/-- A topic entry as grouped in `generate_test_topics`. -/
structure TopicData where
  id : Nat
  name : String
deriving DecidableEq

/-- One row of the competency/topic join fetched by `generate_test_topics`:
`(comp_id, comp_name, importance, topic_id, topic_name)`. -/
structure RawRow where
  comp_id : Nat
  comp_name : String
  importance : Int
  topic_id : Nat
  topic_name : String
deriving DecidableEq

/-- One entry of the `competencies_topics` dict in `generate_test_topics`. -/
structure CompData where
  id : Nat
  name : String
  importance : Int
  topics : List TopicData
deriving DecidableEq

/-- One iteration of the grouping loop in `generate_test_topics`: the Python
dict is keyed by `comp_id` in insertion order, and each row appends its topic
to its competency's list. -/
def addRow (acc : List CompData) (r : RawRow) : List CompData :=
  if acc.any (fun c => c.id == r.comp_id) then
    acc.map (fun c =>
      if c.id == r.comp_id then { c with topics := c.topics ++ [⟨r.topic_id, r.topic_name⟩] }
      else c)
  else
    acc ++ [⟨r.comp_id, r.comp_name, r.importance, [⟨r.topic_id, r.topic_name⟩]⟩]

/-- The grouping pass of `generate_test_topics` (`competencies_topics`). -/
def groupRows (rows : List RawRow) : List CompData :=
  rows.foldl addRow []

/-- Ordering used by `sorted(..., key=lambda x: importance, reverse=True)`. -/
def impGE (a b : CompData) : Prop := b.importance ≤ a.importance

instance : DecidableRel impGE := fun a b => (inferInstance : Decidable (b.importance ≤ a.importance))

instance : IsTotal CompData impGE := ⟨fun a b => le_total b.importance a.importance⟩

instance : IsTrans CompData impGE := ⟨fun _ _ _ hab hbc => le_trans hbc hab⟩

/-- `sorted_competencies` in `generate_test_topics`: the grouped competencies
sorted by descending importance. -/
def sorted_competencies (comps : List CompData) : List CompData :=
  comps.insertionSort impGE

/-- The selection loop of `generate_test_topics`: for each competency (in
sorted order) take its allocation from the distribution, clamp it to the
number of available topics, sample that many topics and emit one
`user_test_topics` row per chosen topic with a running `topic_order` counter.
The middle pattern is unreachable from `generate_test_topics` because the
distribution always has one entry per competency. -/
def select_topics (sample : List TopicData → Nat → List TopicData) (user_test_id : Nat) :
    List CompData → List Nat → Nat → List SelectedTopicRow
  | [], _, _ => []
  | _ :: _, [], _ => []
  | c :: cs, d :: ds, topic_order =>
    let num_topics_needed := if c.topics.length < d then c.topics.length else d
    let chosen_topics := sample c.topics num_topics_needed
    chosen_topics.enum.map (fun p => ⟨user_test_id, p.2.id, c.id, topic_order + p.1⟩)
      ++ select_topics sample user_test_id cs ds (topic_order + chosen_topics.length)

/-- `generate_test_topics` from `db/utils.py`, with the fetched join rows
passed in as `rows` and `random.sample` abstracted as `sample`.  Returns the
batch of `user_test_topics` rows to insert, or the raised exception. -/
def generate_test_topics (sample : List TopicData → Nat → List TopicData)
    (user_test_id specialization_id : Nat) (rows : List RawRow) :
    Except String (List SelectedTopicRow) :=
  if rows.isEmpty then
    Except.error ("No competencies found for specialization_id=" ++ toString specialization_id)
  else
    let competencies_topics := groupRows rows
    let sc := sorted_competencies competencies_topics
    let num_competencies := sc.length
    match calculate_topics_distribution num_competencies with
    | Except.error e => Except.error e
    | Except.ok topics_distribution =>
      Except.ok (select_topics sample user_test_id sc topics_distribution 1)

/-- The store effect of `generate_test_topics`: on success the produced rows
are batch-inserted into `user_test_topics`; on failure nothing is written. -/
def run_generate_test_topics (sample : List TopicData → Nat → List TopicData)
    (user_test_id specialization_id : Nat) (rows : List RawRow) (st : Store) :
    Except String Store :=
  match generate_test_topics sample user_test_id specialization_id rows with
  | Except.error e => Except.error e
  | Except.ok inserted => Except.ok { st with selected_topics := st.selected_topics ++ inserted }

/-- `start_test` from `main.py`: look for an existing test for
`(user_id, specialization_id)`; if one exists return its id and leave the
store untouched, otherwise insert a new test row (`max_score` 24) and run
`generate_test_topics` for it.  `spec_rows` is the competency/topic join that
`generate_test_topics` fetches for the specialization. -/
def start_test (sample : List TopicData → Nat → List TopicData) (st : Store)
    (user_id specialization_id : Nat) (spec_rows : List RawRow) :
    Except ApiError (Store × Nat) :=
  match st.tests.find?
      (fun t => t.user_id == user_id && t.specialization_id == specialization_id) with
  | some existing => Except.ok (st, existing.id)
  | none =>
    let user_test_id := st.next_test_id
    let st1 : Store := { st with
      tests := st.tests ++ [⟨user_test_id, user_id, specialization_id, 1, 24⟩],
      next_test_id := st.next_test_id + 1 }
    match run_generate_test_topics sample user_test_id specialization_id spec_rows st1 with
    | Except.error e => Except.error (ApiError.http 500 e)
    | Except.ok st2 => Except.ok (st2, user_test_id)

/-- The importance recorded for competency id `cid`: that of the first entry
with this id (`0` when absent; competency ids are unique in the DB). -/
def importance_of (comps : List CompData) (cid : Nat) : Int :=
  match comps.find? (fun c => c.id == cid) with
  | some c => c.importance
  | none => 0

/-- All occurrences of `c` in `l` form one contiguous run. -/
def OneBlock (l : List Nat) (c : Nat) : Prop :=
  ∃ pre post, l = pre ++ List.replicate (l.count c) c ++ post ∧ c ∉ pre ∧ c ∉ post

/-- Sum of the fallback allocation scheme: `base` per slot and one extra for
the first `rem` slots. -/
lemma sum_map_range_if (n rem base : Nat) :
    (((List.range n).map (fun i => if i < rem then base + 1 else base)).sum)
      = base * n + min rem n := by
  induction n with
  | zero => simp
  | succ m ih =>
    rw [List.range_succ, List.map_append, List.sum_append, ih]
    simp only [List.map_cons, List.map_nil, List.sum_cons, List.sum_nil, Nat.mul_succ]
    by_cases h : m < rem
    · simp only [if_pos h]
      omega
    · simp only [if_neg h]
      omega

/-- C1: for `n = 4`, `5`, `6` the calculator returns the literal lists
`[2,2,2,2]`, `[2,2,2,1,1]` and `[2,2,1,1,1,1]` respectively. -/
theorem calculate_topics_distribution_explicit_cases :
    calculate_topics_distribution 4 = Except.ok [2, 2, 2, 2] ∧
    calculate_topics_distribution 5 = Except.ok [2, 2, 2, 1, 1] ∧
    calculate_topics_distribution 6 = Except.ok [2, 2, 1, 1, 1, 1] := by
  refine ⟨rfl, rfl, rfl⟩

/-- C2: for every `n ≥ 1` outside `{4,5,6}` the calculator returns the even
split in which every slot gets `8 / n` and the first `8 % n` slots get one
extra topic; that list has length `n`, is non-increasing, and sums to `8`. -/
theorem calculate_topics_distribution_fallback (n : Nat)
    (h1 : 1 ≤ n) (h4 : n ≠ 4) (h5 : n ≠ 5) (h6 : n ≠ 6) :
    calculate_topics_distribution n = Except.ok (spec_fallback_distribution n) ∧
    (spec_fallback_distribution n).length = n ∧
    List.Pairwise (fun a b => b ≤ a) (spec_fallback_distribution n) ∧
    (spec_fallback_distribution n).sum = 8 := by
  have hne : n ≠ 0 := by omega
  refine ⟨?_, ?_, ?_, ?_⟩
  · simp only [calculate_topics_distribution, h4, h5, h6, hne, if_false]
    rfl
  · simp [spec_fallback_distribution]
  · rw [spec_fallback_distribution, List.pairwise_map]
    refine (List.pairwise_lt_range n).imp ?_
    intro i j hij
    split_ifs <;> omega
  · rw [spec_fallback_distribution, sum_map_range_if]
    have hmod : 8 % n < n := Nat.mod_lt _ (by omega)
    have hdm : n * (8 / n) + 8 % n = 8 := Nat.div_add_mod 8 n
    have hmin : min (8 % n) n = 8 % n := by omega
    rw [hmin, Nat.mul_comm]
    omega

/-- C2 witness: the fallback theorem instantiated at `n = 3`. -/
theorem calculate_topics_distribution_fallback_witness :
    calculate_topics_distribution 3 = Except.ok (spec_fallback_distribution 3) ∧
    (spec_fallback_distribution 3).length = 3 ∧
    List.Pairwise (fun a b => b ≤ a) (spec_fallback_distribution 3) ∧
    (spec_fallback_distribution 3).sum = 8 :=
  calculate_topics_distribution_fallback 3 (by decide) (by decide) (by decide) (by decide)

/-- C10: at `n = 0` the calculator hits the division `8 // 0` and raises
`ZeroDivisionError`; for every `n ≥ 1` it returns a list. -/
theorem calculate_topics_distribution_zero_division :
    calculate_topics_distribution 0 =
      Except.error "ZeroDivisionError: integer division or modulo by zero" ∧
    ∀ n : Nat, 1 ≤ n → (calculate_topics_distribution n).isOk = true := by
  constructor
  · rfl
  · intro n h1
    by_cases h4 : n = 4
    · subst h4; rfl
    by_cases h5 : n = 5
    · subst h5; rfl
    by_cases h6 : n = 6
    · subst h6; rfl
    have hne : n ≠ 0 := by omega
    simp [calculate_topics_distribution, h4, h5, h6, hne, Except.isOk, Except.toBool]

/-- C10 witness: the zero-division theorem evaluated at `n = 0` and `n = 7`. -/
theorem calculate_topics_distribution_zero_division_witness :
    calculate_topics_distribution 0 =
      Except.error "ZeroDivisionError: integer division or modulo by zero" ∧
    (calculate_topics_distribution 7).isOk = true :=
  ⟨calculate_topics_distribution_zero_division.1,
   calculate_topics_distribution_zero_division.2 7 (by decide)⟩

/-- The aggregation loop of `get_test_progress`, unrolled: the produced list
is the mapped statistics and each total is the initial value plus the sum of
the corresponding column. -/
lemma progress_foldl (stats : List CompStatRow) (acc : List CompProgress × Nat × Nat × Nat) :
    stats.foldl progress_step acc =
      (acc.1 ++ stats.map (fun r => ⟨r.id, r.name, r.answered, r.correct, r.total_questions⟩),
       acc.2.1 + (stats.map (fun r => r.answered)).sum,
       acc.2.2.1 + (stats.map (fun r => r.correct)).sum,
       acc.2.2.2 + (stats.map (fun r => r.total_questions)).sum) := by
  induction stats generalizing acc with
  | nil => simp
  | cons r rest ih =>
    rw [List.foldl_cons, ih]
    simp [progress_step, Nat.add_assoc]

/-- C8: the instance-wide totals returned by `get_test_progress` equal the
sums of the corresponding fields over the returned per-competency entries. -/
theorem get_test_progress_totals (row : Option Nat) (stats : List CompStatRow) :
    (get_test_progress row stats).total.answered
        = ((get_test_progress row stats).competencies.map (fun c => c.answered)).sum ∧
    (get_test_progress row stats).total.correct
        = ((get_test_progress row stats).competencies.map (fun c => c.correct)).sum ∧
    (get_test_progress row stats).total.total
        = ((get_test_progress row stats).competencies.map (fun c => c.total)).sum := by
  simp [get_test_progress, progress_foldl, List.map_map, Function.comp_def]

/-- C4: with zero competencies (an empty join result) `generate_test_topics`
raises instead of silently defaulting, and its store effect writes no
`user_test_topics` rows: the run fails without producing a new store. -/
theorem generate_test_topics_empty_error
    (sample : List TopicData → Nat → List TopicData)
    (user_test_id specialization_id : Nat) (st : Store) :
    generate_test_topics sample user_test_id specialization_id [] =
      Except.error ("No competencies found for specialization_id="
        ++ toString specialization_id) ∧
    run_generate_test_topics sample user_test_id specialization_id [] st =
      Except.error ("No competencies found for specialization_id="
        ++ toString specialization_id) := by
  exact ⟨rfl, rfl⟩

/-- C6: submitting an answer for a `(test, question)` pair that already has a
recorded answer succeeds (no error) and leaves the answer table unchanged, so
the stored answer keeps the first submission's option and correctness flag. -/
theorem submit_answer_duplicate_noop
    (st : Store) (user_id user_test_id question_id user_answer : Nat)
    (t : TestRec) (q : QuestionRec) (a0 : AnswerRec)
    (ht : st.tests.find? (fun tr => tr.id == user_test_id) = some t)
    (howner : t.user_id = user_id)
    (hq : st.questions.find? (fun qr => qr.id == question_id) = some q)
    (ha : st.answers.find?
        (fun a => a.user_test_id == user_test_id && a.question_id == question_id) = some a0) :
    (submit_answer st user_id user_test_id question_id user_answer).toOption.map
        (fun p => p.1.answers) = some st.answers ∧
    (submit_answer st user_id user_test_id question_id user_answer).toOption.map
        (fun p => p.1.answers.find?
          (fun a => a.user_test_id == user_test_id && a.question_id == question_id))
      = some (some a0) := by
  subst howner
  have hmem := List.mem_of_find?_eq_some ha
  have hpa := List.find?_some ha
  have hany : st.answers.any
      (fun a => a.user_test_id == user_test_id && a.question_id == question_id) = true :=
    List.any_eq_true.mpr ⟨a0, hmem, hpa⟩
  simp [submit_answer, ht, hq, hany, Except.toOption, ha]

/-- C9: every non-erroring `submit_answer` call updates the instance's
`current_question_number` to the value read at the start plus one; the update
is not guarded by the duplicate-answer check, so it also fires when the
`(test, question)` pair already has a recorded answer. -/
theorem submit_answer_increments_counter
    (st : Store) (user_id user_test_id question_id user_answer : Nat)
    (t : TestRec) (q : QuestionRec)
    (ht : st.tests.find? (fun tr => tr.id == user_test_id) = some t)
    (howner : t.user_id = user_id)
    (hq : st.questions.find? (fun qr => qr.id == question_id) = some q) :
    (submit_answer st user_id user_test_id question_id user_answer).toOption.map
        (fun p => p.1.tests.find? (fun tr => tr.id == user_test_id))
      = some (some { t with current_question_number := t.current_question_number + 1 }) := by
  subst howner
  have htid : (t.id == user_test_id) = true :=
    @List.find?_some TestRec (fun tr => tr.id == user_test_id) t st.tests ht
  simp only [submit_answer, ht, hq, ne_eq, not_true_eq_false, if_false, ite_false,
    Except.toOption]
  simp only [Option.map_some']
  rw [List.find?_map]
  have hpf : ((fun tr : TestRec => tr.id == user_test_id) ∘ (fun tr : TestRec =>
      if tr.id == user_test_id then
        { tr with current_question_number := t.current_question_number + 1 }
      else tr))
      = (fun tr : TestRec => tr.id == user_test_id) := by
    funext tr
    by_cases h : tr.id = user_test_id <;> simp [h]
  rw [hpf, ht]
  have heq : t.id = user_test_id := by simpa using htid
  simp [heq]

/-- C7: starting a test for a `(user, specialization)` pair that already has
a test instance returns that instance's id and leaves the store unchanged:
no second instance is created and topic generation does not run again. -/
theorem start_test_idempotent
    (sample : List TopicData → Nat → List TopicData) (st : Store)
    (user_id specialization_id : Nat) (spec_rows : List RawRow) (t : TestRec)
    (hfound : st.tests.find?
        (fun tr => tr.user_id == user_id && tr.specialization_id == specialization_id)
      = some t) :
    start_test sample st user_id specialization_id spec_rows = Except.ok (st, t.id) := by
  simp only [start_test, hfound]

/-- `addRow` never returns an empty accumulator. -/
lemma addRow_ne_nil (acc : List CompData) (r : RawRow) : addRow acc r ≠ [] := by
  unfold addRow
  split
  · next h =>
    obtain ⟨c, hc, _⟩ := List.any_eq_true.mp h
    intro hmap
    rw [List.map_eq_nil_iff] at hmap
    subst hmap
    simp at hc
  · simp

/-- Folding `addRow` preserves non-emptiness of the accumulator. -/
lemma foldl_addRow_ne_nil (rows : List RawRow) :
    ∀ acc : List CompData, acc ≠ [] → rows.foldl addRow acc ≠ [] := by
  induction rows with
  | nil => intro acc h; simpa using h
  | cons r rest ih =>
    intro acc _
    rw [List.foldl_cons]
    exact ih _ (addRow_ne_nil acc r)

/-- A non-empty join result groups into at least one competency. -/
lemma groupRows_ne_nil (rows : List RawRow) (h : rows ≠ []) : groupRows rows ≠ [] := by
  cases rows with
  | nil => exact absurd rfl h
  | cons r rest =>
    rw [groupRows, List.foldl_cons]
    exact foldl_addRow_ne_nil rest _ (addRow_ne_nil [] r)

/-- One `addRow` step either keeps the id column or appends a fresh id. -/
lemma addRow_map_id (acc : List CompData) (r : RawRow) :
    (addRow acc r).map (fun c => c.id) = acc.map (fun c => c.id) ∨
    ((addRow acc r).map (fun c => c.id) = acc.map (fun c => c.id) ++ [r.comp_id] ∧
      r.comp_id ∉ acc.map (fun c => c.id)) := by
  unfold addRow
  split
  · left
    rw [List.map_map]
    apply List.map_congr_left
    intro c _
    by_cases h : c.id = r.comp_id <;> simp [h]
  · next h =>
    right
    refine ⟨by simp, ?_⟩
    intro hmem
    apply h
    rw [List.any_eq_true]
    simp only [List.mem_map] at hmem
    obtain ⟨c, hc, hid⟩ := hmem
    exact ⟨c, hc, by simp [hid]⟩

/-- Folding `addRow` preserves distinctness of the competency ids. -/
lemma foldl_addRow_nodup (rows : List RawRow) :
    ∀ acc : List CompData, (acc.map (fun c => c.id)).Nodup →
      ((rows.foldl addRow acc).map (fun c => c.id)).Nodup := by
  induction rows with
  | nil => intro acc h; simpa using h
  | cons r rest ih =>
    intro acc h
    rw [List.foldl_cons]
    apply ih
    rcases addRow_map_id acc r with heq | ⟨heq, hnot⟩
    · rw [heq]; exact h
    · rw [heq, List.nodup_append]
      refine ⟨h, List.nodup_singleton _, ?_⟩
      intro x hx hmem
      rw [List.mem_singleton] at hmem
      exact hnot (hmem ▸ hx)

/-- Competency ids produced by the grouping pass are pairwise distinct:
the Python dict is keyed by `comp_id`. -/
lemma groupRows_nodup_ids (rows : List RawRow) :
    ((groupRows rows).map (fun c => c.id)).Nodup :=
  foldl_addRow_nodup rows [] (by simp)

/-- Lists that are permutations of each other with unique ids assign the same
importance to every competency id. -/
lemma importance_of_perm (l l2 : List CompData) (hperm : l2.Perm l)
    (hnodup : (l.map (fun c => c.id)).Nodup) (cid : Nat) :
    importance_of l2 cid = importance_of l cid := by
  unfold importance_of
  cases hfind : l.find? (fun c => c.id == cid) with
  | none =>
    have h2 : l2.find? (fun c => c.id == cid) = none := by
      rw [List.find?_eq_none] at hfind ⊢
      intro x hx
      exact hfind x (hperm.mem_iff.mp hx)
    rw [h2]
  | some c =>
    have hc_mem : c ∈ l := List.mem_of_find?_eq_some hfind
    have hc_p := List.find?_some hfind
    have hsome : (l2.find? (fun c => c.id == cid)).isSome = true := by
      rw [List.find?_isSome]
      exact ⟨c, hperm.mem_iff.mpr hc_mem, hc_p⟩
    obtain ⟨c2, hc2⟩ := Option.isSome_iff_exists.mp hsome
    have hc2_mem : c2 ∈ l := hperm.mem_iff.mp (List.mem_of_find?_eq_some hc2)
    have hc2_p := List.find?_some hc2
    have hcc : c2 = c := by
      apply List.inj_on_of_nodup_map hnodup hc2_mem hc_mem
      have h1 : c2.id = cid := by simpa using hc2_p
      have h2 : c.id = cid := by simpa using hc_p
      rw [h1, h2]
    rw [hc2, hcc]

/-- The sorted competency list keeps the ids pairwise distinct. -/
lemma sorted_competencies_nodup_ids (raws : List RawRow) :
    ((sorted_competencies (groupRows raws)).map (fun c => c.id)).Nodup := by
  have hgnodup := groupRows_nodup_ids raws
  have hperm := (List.perm_insertionSort impGE (groupRows raws)).map (fun c => c.id)
  exact hperm.symm.nodup hgnodup

/-- A relation that holds between any two members of a list holds pairwise. -/
lemma pairwise_of_forall_mem {α : Type} {R : α → α → Prop} :
    ∀ {l : List α}, (∀ a ∈ l, ∀ b ∈ l, R a b) → List.Pairwise R l := by
  intro l
  induction l with
  | nil => intro _; exact List.Pairwise.nil
  | cons a as ih =>
    intro h
    refine List.Pairwise.cons ?_ (ih ?_)
    · intro b hb; exact h a (by simp) b (by simp [hb])
    · intro x hx y hy; exact h x (by simp [hx]) y (by simp [hy])

/-- Looking up the head competency's id yields its importance. -/
lemma importance_of_head (c : CompData) (cs : List CompData) :
    importance_of (c :: cs) c.id = c.importance := by
  simp [importance_of, List.find?_cons]

/-- Looking up a different id skips the head competency. -/
lemma importance_of_cons_ne (c : CompData) (cs : List CompData) (cid : Nat) (h : c.id ≠ cid) :
    importance_of (c :: cs) cid = importance_of cs cid := by
  have hb : (c.id == cid) = false := by simp [h]
  simp [importance_of, List.find?_cons, hb]

/-- An id present in the list is looked up to an importance bounded by any
bound on all the importances. -/
lemma importance_of_le_of_mem_ids (cs : List CompData) (cid : Nat) (bound : Int)
    (hmem : cid ∈ cs.map (fun x => x.id)) (hall : ∀ x ∈ cs, x.importance ≤ bound) :
    importance_of cs cid ≤ bound := by
  rw [List.mem_map] at hmem
  obtain ⟨x, hx, hxid⟩ := hmem
  have hsome : (cs.find? (fun c2 => c2.id == cid)).isSome = true := by
    rw [List.find?_isSome]
    exact ⟨x, hx, by simp [hxid]⟩
  obtain ⟨c2, hc2⟩ := Option.isSome_iff_exists.mp hsome
  have hle := hall c2 (List.mem_of_find?_eq_some hc2)
  unfold importance_of
  rw [hc2]
  exact hle

/-- Every row emitted by the selection loop carries one of its competencies'
ids. -/
lemma select_topics_comp_mem (sample : List TopicData → Nat → List TopicData) (uid : Nat) :
    ∀ (comps : List CompData) (dist : List Nat) (ord : Nat),
      ∀ r ∈ select_topics sample uid comps dist ord,
        r.competency_id ∈ comps.map (fun c => c.id) := by
  intro comps
  induction comps with
  | nil => intro dist ord r hr; simp [select_topics] at hr
  | cons c cs ih =>
    intro dist ord r hr
    cases dist with
    | nil => simp [select_topics] at hr
    | cons d ds =>
      simp only [select_topics, List.mem_append] at hr
      rcases hr with hr | hr
      · simp only [List.mem_map] at hr
        obtain ⟨p, _, rfl⟩ := hr
        simp
      · have hmem := ih ds _ r hr
        simp only [List.map_cons, List.mem_cons]
        exact Or.inr hmem

/-- An id outside the competency list never appears in the emitted rows. -/
lemma select_topics_comp_not_mem (sample : List TopicData → Nat → List TopicData)
    (uid cid : Nat) (comps : List CompData) (dist : List Nat) (ord : Nat)
    (h : cid ∉ comps.map (fun c => c.id)) :
    cid ∉ (select_topics sample uid comps dist ord).map (fun r => r.competency_id) := by
  intro hmem
  rw [List.mem_map] at hmem
  obtain ⟨r, hr, hrc⟩ := hmem
  exact h (hrc ▸ select_topics_comp_mem sample uid comps dist ord r hr)

/-- The `topic_order` column of one emitted chunk is the contiguous range
starting at the running counter. -/
lemma map_order_chunk (uid cid ord : Nat) (l : List TopicData) :
    ((l.enum.map (fun p => (⟨uid, p.2.id, cid, ord + p.1⟩ : SelectedTopicRow))).map
        (fun r => r.topic_order)) = List.range' ord l.length := by
  rw [List.map_map]
  have h1 : ((fun r : SelectedTopicRow => r.topic_order) ∘
      (fun p : Nat × TopicData => (⟨uid, p.2.id, cid, ord + p.1⟩ : SelectedTopicRow)))
      = ((fun i => ord + i) ∘ Prod.fst) := rfl
  rw [h1, ← List.map_map, List.enum_map_fst, ← List.range'_eq_map_range]

/-- The `topic_order` column produced by the selection loop is the contiguous
range starting at the running counter. -/
lemma select_topics_orders (sample : List TopicData → Nat → List TopicData) (uid : Nat) :
    ∀ (comps : List CompData) (dist : List Nat) (ord : Nat),
      (select_topics sample uid comps dist ord).map (fun r => r.topic_order)
        = List.range' ord (select_topics sample uid comps dist ord).length := by
  intro comps
  induction comps with
  | nil => intro dist ord; simp [select_topics]
  | cons c cs ih =>
    intro dist ord
    cases dist with
    | nil => simp [select_topics]
    | cons d ds =>
      simp only [select_topics]
      rw [List.map_append, map_order_chunk, ih, List.length_append, List.length_map,
        List.enum_length]
      have happ := List.range'_append ord
        (sample c.topics (if c.topics.length < d then c.topics.length else d)).length
        (select_topics sample uid cs ds
          (ord + (sample c.topics (if c.topics.length < d then c.topics.length else d)).length)).length
        1
      simp only [one_mul] at happ
      rw [happ, Nat.add_comm]

/-- With a length-respecting sampler the loop emits at most `dist.sum` rows. -/
lemma select_topics_length_le (sample : List TopicData → Nat → List TopicData) (uid : Nat)
    (Hs : ∀ (xs : List TopicData) (k : Nat), k ≤ xs.length → (sample xs k).length = k) :
    ∀ (comps : List CompData) (dist : List Nat) (ord : Nat),
      (select_topics sample uid comps dist ord).length ≤ dist.sum := by
  intro comps
  induction comps with
  | nil => intro dist ord; simp [select_topics]
  | cons c cs ih =>
    intro dist ord
    cases dist with
    | nil => simp [select_topics]
    | cons d ds =>
      simp only [select_topics]
      rw [List.length_append, List.length_map, List.enum_length]
      have hneed : (if c.topics.length < d then c.topics.length else d) ≤ c.topics.length := by
        split <;> omega
      have hd : (if c.topics.length < d then c.topics.length else d) ≤ d := by
        split <;> omega
      have hlen := Hs c.topics (if c.topics.length < d then c.topics.length else d) hneed
      have hrest := ih ds
        (ord + (sample c.topics (if c.topics.length < d then c.topics.length else d)).length)
      rw [List.sum_cons]
      omega

/-- The competency column of one emitted chunk is constant. -/
lemma map_comp_chunk (uid cid ord : Nat) (l : List TopicData) :
    ((l.enum.map (fun p => (⟨uid, p.2.id, cid, ord + p.1⟩ : SelectedTopicRow))).map
        (fun r => r.competency_id)) = List.replicate l.length cid := by
  rw [List.map_map]
  have h1 : ((fun r : SelectedTopicRow => r.competency_id) ∘
      (fun p : Nat × TopicData => (⟨uid, p.2.id, cid, ord + p.1⟩ : SelectedTopicRow)))
      = (fun _ : Nat × TopicData => cid) := rfl
  rw [h1, List.map_const', List.enum_length]

/-- With pairwise-distinct competency ids, the competency column emitted by
the selection loop keeps each id's occurrences in one contiguous run. -/
lemma select_topics_one_block (sample : List TopicData → Nat → List TopicData) (uid : Nat) :
    ∀ (comps : List CompData) (dist : List Nat) (ord : Nat),
      (comps.map (fun c => c.id)).Nodup →
      ∀ cid, OneBlock ((select_topics sample uid comps dist ord).map
        (fun r => r.competency_id)) cid := by
  intro comps
  induction comps with
  | nil =>
    intro dist ord _ cid
    refine ⟨[], [], ?_, ?_, ?_⟩ <;> simp [select_topics]
  | cons c cs ih =>
    intro dist ord hnodup cid
    cases dist with
    | nil => refine ⟨[], [], ?_, ?_, ?_⟩ <;> simp [select_topics]
    | cons d ds =>
      obtain ⟨hc_not, hcs_nodup⟩ : c.id ∉ cs.map (fun x => x.id) ∧
          (cs.map (fun x => x.id)).Nodup := by
        simpa [List.nodup_cons] using hnodup
      simp only [select_topics]
      rw [List.map_append, map_comp_chunk]
      by_cases hcid : cid = c.id
      · subst hcid
        have hnotrest : c.id ∉ (select_topics sample uid cs ds
            (ord + (sample c.topics (if c.topics.length < d then c.topics.length else d)).length)).map
              (fun r => r.competency_id) :=
          select_topics_comp_not_mem sample uid c.id cs ds _ hc_not
        refine ⟨[], _, ?_, by simp, hnotrest⟩
        rw [List.nil_append, List.count_append, List.count_replicate]
        simp only [beq_self_eq_true, if_true]
        rw [List.count_eq_zero.mpr hnotrest]
        simp
      · obtain ⟨pre, post, hsplit, hpre, hpost⟩ := ih ds
          (ord + (sample c.topics (if c.topics.length < d then c.topics.length else d)).length)
          hcs_nodup cid
        refine ⟨List.replicate (sample c.topics
            (if c.topics.length < d then c.topics.length else d)).length c.id ++ pre,
          post, ?_, ?_, hpost⟩
        · rw [List.count_append, List.count_replicate]
          have hne : (c.id == cid) = false := by
            simp only [beq_eq_false_iff_ne, ne_eq]
            exact fun he => hcid he.symm
          rw [hne]
          simp only [Bool.false_eq_true, if_false, Nat.zero_add]
          conv_lhs => rw [hsplit]
          simp [List.append_assoc]
        · intro hmem
          rcases List.mem_append.mp hmem with hm | hm
          · exact hcid (List.eq_of_mem_replicate hm)
          · exact hpre hm

/-- With unique competency ids and competencies sorted by descending
importance, every emitted row's competency importance dominates that of every
later row. -/
lemma select_topics_pairwise_importance (sample : List TopicData → Nat → List TopicData)
    (uid : Nat) :
    ∀ (comps : List CompData) (dist : List Nat) (ord : Nat),
      (comps.map (fun c => c.id)).Nodup →
      List.Pairwise impGE comps →
      List.Pairwise (fun r s => importance_of comps s.competency_id
          ≤ importance_of comps r.competency_id)
        (select_topics sample uid comps dist ord) := by
  intro comps
  induction comps with
  | nil => intro dist ord _ _; simp [select_topics]
  | cons c cs ih =>
    intro dist ord hnodup hsorted
    cases dist with
    | nil => simp [select_topics]
    | cons d ds =>
      obtain ⟨hc_not, hcs_nodup⟩ : c.id ∉ cs.map (fun x => x.id) ∧
          (cs.map (fun x => x.id)).Nodup := by
        simpa [List.nodup_cons] using hnodup
      rw [List.pairwise_cons] at hsorted
      obtain ⟨hhead, htail⟩ := hsorted
      simp only [select_topics]
      rw [List.pairwise_append]
      refine ⟨?_, ?_, ?_⟩
      · apply pairwise_of_forall_mem
        intro a ha b hb
        rw [List.mem_map] at ha hb
        obtain ⟨p, _, rfl⟩ := ha
        obtain ⟨p2, _, rfl⟩ := hb
        exact le_refl _
      · refine List.Pairwise.imp_of_mem ?_ (ih ds _ hcs_nodup htail)
        intro a b ha hb hab
        have hacid := select_topics_comp_mem sample uid cs ds _ a ha
        have hbcid := select_topics_comp_mem sample uid cs ds _ b hb
        have h1 : c.id ≠ a.competency_id := fun he => hc_not (he ▸ hacid)
        have h2 : c.id ≠ b.competency_id := fun he => hc_not (he ▸ hbcid)
        rw [importance_of_cons_ne _ _ _ h1, importance_of_cons_ne _ _ _ h2]
        exact hab
      · intro a ha b hb
        rw [List.mem_map] at ha
        obtain ⟨p, _, rfl⟩ := ha
        have hbcid := select_topics_comp_mem sample uid cs ds _ b hb
        have h2 : c.id ≠ b.competency_id := fun he => hc_not (he ▸ hbcid)
        rw [importance_of_cons_ne _ _ _ h2]
        show importance_of cs b.competency_id ≤ importance_of (c :: cs) c.id
        rw [importance_of_head]
        exact importance_of_le_of_mem_ids cs b.competency_id c.importance hbcid hhead

/-- The rows the selection loop emits for the `i`-th competency are exactly
the topics sampled with the clamped allocation. -/
lemma select_topics_filter (sample : List TopicData → Nat → List TopicData) (uid : Nat) :
    ∀ (i : Nat) (comps : List CompData) (dist : List Nat) (ord : Nat) (c : CompData) (d : Nat),
      (comps.map (fun x => x.id)).Nodup →
      comps[i]? = some c → dist[i]? = some d →
      ((select_topics sample uid comps dist ord).filter
          (fun r => r.competency_id == c.id)).map (fun r => r.topic_id)
        = (sample c.topics (if c.topics.length < d then c.topics.length else d)).map
            (fun t => t.id) := by
  intro i
  induction i with
  | zero =>
    intro comps dist ord c d hnodup hc hd
    cases comps with
    | nil => simp at hc
    | cons c0 cs =>
      cases dist with
      | nil => simp at hd
      | cons d0 ds =>
        obtain rfl : c0 = c := by simpa using hc
        obtain rfl : d0 = d := by simpa using hd
        obtain ⟨hc_not, _⟩ : c0.id ∉ cs.map (fun x => x.id) ∧
            (cs.map (fun x => x.id)).Nodup := by
          simpa [List.nodup_cons] using hnodup
        simp only [select_topics]
        rw [List.filter_append]
        have hkeep : ∀ a ∈ (sample c0.topics
            (if c0.topics.length < d0 then c0.topics.length else d0)).enum.map
              (fun p => (⟨uid, p.2.id, c0.id, ord + p.1⟩ : SelectedTopicRow)),
            (a.competency_id == c0.id) = true := by
          intro a ha
          rw [List.mem_map] at ha
          obtain ⟨p, _, rfl⟩ := ha
          simp
        have hdrop : List.filter (fun r => r.competency_id == c0.id)
            (select_topics sample uid cs ds
              (ord + (sample c0.topics
                (if c0.topics.length < d0 then c0.topics.length else d0)).length)) = [] := by
          rw [List.filter_eq_nil_iff]
          intro r hr
          have hmem := select_topics_comp_mem sample uid cs ds _ r hr
          simp only [beq_iff_eq]
          intro he
          exact hc_not (he ▸ hmem)
        rw [List.filter_eq_self.mpr hkeep, hdrop, List.append_nil, List.map_map]
        have h1 : ((fun r : SelectedTopicRow => r.topic_id) ∘
            (fun p : Nat × TopicData => (⟨uid, p.2.id, c0.id, ord + p.1⟩ : SelectedTopicRow)))
            = ((fun t : TopicData => t.id) ∘ Prod.snd) := rfl
        rw [h1, ← List.map_map, List.enum_map_snd]
  | succ i ih =>
    intro comps dist ord c d hnodup hc hd
    cases comps with
    | nil => simp at hc
    | cons c0 cs =>
      cases dist with
      | nil => simp at hd
      | cons d0 ds =>
        rw [List.getElem?_cons_succ] at hc hd
        obtain ⟨hc_not, hcs_nodup⟩ : c0.id ∉ cs.map (fun x => x.id) ∧
            (cs.map (fun x => x.id)).Nodup := by
          simpa [List.nodup_cons] using hnodup
        have hcmem : c ∈ cs := by
          rw [List.getElem?_eq_some] at hc
          obtain ⟨hlt, hget⟩ := hc
          exact hget ▸ List.getElem_mem hlt
        have hcid_ne : c.id ≠ c0.id := by
          intro he
          apply hc_not
          rw [← he]
          exact List.mem_map.mpr ⟨c, hcmem, rfl⟩
        simp only [select_topics]
        rw [List.filter_append]
        have hchunkdrop : List.filter (fun r => r.competency_id == c.id)
            ((sample c0.topics (if c0.topics.length < d0 then c0.topics.length else d0)).enum.map
              (fun p => (⟨uid, p.2.id, c0.id, ord + p.1⟩ : SelectedTopicRow))) = [] := by
          rw [List.filter_eq_nil_iff]
          intro r hr
          rw [List.mem_map] at hr
          obtain ⟨p, _, rfl⟩ := hr
          simp only [beq_iff_eq]
          exact fun he => hcid_ne he.symm
        rw [hchunkdrop, List.nil_append]
        exact ih cs ds _ c d hcs_nodup hc hd

/-- Any list the calculator returns sums to 8. -/
lemma calculate_topics_distribution_sum (n : Nat) (l : List Nat)
    (h : calculate_topics_distribution n = Except.ok l) : l.sum = 8 := by
  by_cases h4 : n = 4
  · subst h4
    obtain rfl := Except.ok.inj h
    rfl
  by_cases h5 : n = 5
  · subst h5
    obtain rfl := Except.ok.inj h
    rfl
  by_cases h6 : n = 6
  · subst h6
    obtain rfl := Except.ok.inj h
    rfl
  by_cases h0 : n = 0
  · subst h0
    simp only [calculate_topics_distribution] at h
    cases h
  simp only [calculate_topics_distribution, TOTAL_TOPICS, h4, h5, h6, h0, if_false] at h
  obtain rfl := Except.ok.inj h
  rw [sum_map_range_if]
  have hmod : 8 % n < n := Nat.mod_lt _ (by omega)
  have hdm : n * (8 / n) + 8 % n = 8 := Nat.div_add_mod 8 n
  have hmin : min (8 % n) n = 8 % n := by omega
  rw [hmin, Nat.mul_comm]
  omega

/-- A successful `generate_test_topics` run decomposes into a distribution
computed from the competency count and the selection loop started at 1. -/
lemma generate_test_topics_ok (sample : List TopicData → Nat → List TopicData)
    (uid specId : Nat) (raws : List RawRow) (rows : List SelectedTopicRow)
    (Hok : generate_test_topics sample uid specId raws = Except.ok rows) :
    ∃ dist, calculate_topics_distribution (sorted_competencies (groupRows raws)).length
        = Except.ok dist ∧
      rows = select_topics sample uid (sorted_competencies (groupRows raws)) dist 1 := by
  by_cases hne : raws.isEmpty
  · rw [generate_test_topics, if_pos hne] at Hok
    cases Hok
  · simp only [generate_test_topics, hne, Bool.false_eq_true, if_false] at Hok
    cases hcalc : calculate_topics_distribution (sorted_competencies (groupRows raws)).length with
    | error e => rw [hcalc] at Hok; cases Hok
    | ok dist =>
      rw [hcalc] at Hok
      exact ⟨dist, rfl, (Except.ok.inj Hok).symm⟩

/-- C3: after a successful `generate_test_topics` run the persisted
`topic_order` values are exactly the contiguous range `1..k` with `k ≤ 8`
(no gaps or duplicates), the rows of any one competency form a contiguous
block, and rows are ordered by descending competency importance as recorded
in the grouped input.  `sample` is `random.sample`, assumed only to return
the requested number of topics. -/
theorem generate_test_topics_order_invariant
    (sample : List TopicData → Nat → List TopicData)
    (uid specId : Nat) (raws : List RawRow) (rows : List SelectedTopicRow)
    (Hs : ∀ (xs : List TopicData) (k : Nat), k ≤ xs.length → (sample xs k).length = k)
    (Hok : generate_test_topics sample uid specId raws = Except.ok rows) :
    rows.map (fun r => r.topic_order) = List.range' 1 rows.length ∧
    rows.length ≤ 8 ∧
    (∀ cid, OneBlock (rows.map (fun r => r.competency_id)) cid) ∧
    List.Pairwise (fun r s => importance_of (groupRows raws) s.competency_id
        ≤ importance_of (groupRows raws) r.competency_id) rows := by
  obtain ⟨dist, hcalc, hrows⟩ := generate_test_topics_ok sample uid specId raws rows Hok
  have hgnodup : ((groupRows raws).map (fun c => c.id)).Nodup := groupRows_nodup_ids raws
  have hperm : (sorted_competencies (groupRows raws)).Perm (groupRows raws) :=
    List.perm_insertionSort impGE (groupRows raws)
  have hsnodup := sorted_competencies_nodup_ids raws
  have hsorted : List.Pairwise impGE (sorted_competencies (groupRows raws)) :=
    List.sorted_insertionSort impGE (groupRows raws)
  subst hrows
  refine ⟨select_topics_orders sample uid _ dist 1, ?_, ?_, ?_⟩
  · have h1 := select_topics_length_le sample uid Hs
      (sorted_competencies (groupRows raws)) dist 1
    have h2 := calculate_topics_distribution_sum _ dist hcalc
    omega
  · intro cid
    exact select_topics_one_block sample uid _ dist 1 hsnodup cid
  · have hp := select_topics_pairwise_importance sample uid _ dist 1 hsnodup hsorted
    refine List.Pairwise.imp_of_mem ?_ hp
    intro r s _ _ h
    rw [importance_of_perm _ _ hperm hgnodup r.competency_id,
        importance_of_perm _ _ hperm hgnodup s.competency_id] at h
    exact h

/-- C3 witness: the order invariant evaluated on a concrete two-competency
specialization with prefix sampling. -/
theorem generate_test_topics_order_invariant_witness :
    ([⟨7, 11, 1, 1⟩, ⟨7, 12, 1, 2⟩, ⟨7, 21, 2, 3⟩] : List SelectedTopicRow).map
        (fun r => r.topic_order)
      = List.range' 1 ([⟨7, 11, 1, 1⟩, ⟨7, 12, 1, 2⟩,
          ⟨7, 21, 2, 3⟩] : List SelectedTopicRow).length ∧
    ([⟨7, 11, 1, 1⟩, ⟨7, 12, 1, 2⟩, ⟨7, 21, 2, 3⟩] : List SelectedTopicRow).length ≤ 8 ∧
    OneBlock (([⟨7, 11, 1, 1⟩, ⟨7, 12, 1, 2⟩, ⟨7, 21, 2, 3⟩] : List SelectedTopicRow).map
      (fun r => r.competency_id)) 1 ∧
    List.Pairwise (fun r s =>
        importance_of (groupRows [⟨1, "A", 90, 11, "t11"⟩, ⟨1, "A", 90, 12, "t12"⟩,
          ⟨2, "B", 70, 21, "t21"⟩]) s.competency_id
          ≤ importance_of (groupRows [⟨1, "A", 90, 11, "t11"⟩, ⟨1, "A", 90, 12, "t12"⟩,
            ⟨2, "B", 70, 21, "t21"⟩]) r.competency_id)
      ([⟨7, 11, 1, 1⟩, ⟨7, 12, 1, 2⟩, ⟨7, 21, 2, 3⟩] : List SelectedTopicRow) := by
  have h := generate_test_topics_order_invariant (fun xs k => xs.take k) 7 5
    [⟨1, "A", 90, 11, "t11"⟩, ⟨1, "A", 90, 12, "t12"⟩, ⟨2, "B", 70, 21, "t21"⟩]
    [⟨7, 11, 1, 1⟩, ⟨7, 12, 1, 2⟩, ⟨7, 21, 2, 3⟩]
    (fun xs k hk => by simp [List.length_take]; omega) rfl
  exact ⟨h.1, h.2.1, h.2.2.1 1, h.2.2.2⟩

/-- C5: when the `i`-th competency in sorted order has fewer available topics
than its allocated target, `generate_test_topics` still succeeds, selects
exactly that competency's full topic set (the target is clamped down), and
the total number of persisted rows stays at most 8 — it may thus drop below
8.  `sample` returns the requested number of distinct available topics, as
`random.sample` does. -/
theorem generate_test_topics_clamps_underprovisioned
    (sample : List TopicData → Nat → List TopicData)
    (uid specId : Nat) (raws : List RawRow) (dist : List Nat) (i : Nat)
    (c : CompData) (d : Nat)
    (Hs : ∀ (xs : List TopicData) (k : Nat), k ≤ xs.length → (sample xs k).length = k)
    (Hsub : ∀ (xs : List TopicData) (k : Nat), k ≤ xs.length → (sample xs k).Subperm xs)
    (hraws : raws ≠ [])
    (hdist : calculate_topics_distribution (sorted_competencies (groupRows raws)).length
        = Except.ok dist)
    (hc : (sorted_competencies (groupRows raws))[i]? = some c)
    (hd : dist[i]? = some d)
    (hlt : c.topics.length < d) :
    ∃ rows, generate_test_topics sample uid specId raws = Except.ok rows ∧
      ((rows.filter (fun r => r.competency_id == c.id)).map (fun r => r.topic_id)).Perm
        (c.topics.map (fun t => t.id)) ∧
      rows.length ≤ 8 := by
  have hempty : raws.isEmpty = false := by
    cases raws with
    | nil => exact absurd rfl hraws
    | cons a l => rfl
  refine ⟨select_topics sample uid (sorted_competencies (groupRows raws)) dist 1, ?_, ?_, ?_⟩
  · simp only [generate_test_topics, hempty, Bool.false_eq_true, if_false, hdist]
  · have hsnodup := sorted_competencies_nodup_ids raws
    rw [select_topics_filter sample uid i _ dist 1 c d hsnodup hc hd, if_pos hlt]
    have hsp := Hsub c.topics c.topics.length le_rfl
    have hlen := Hs c.topics c.topics.length le_rfl
    have hperm : (sample c.topics c.topics.length).Perm c.topics :=
      hsp.perm_of_length_le (by omega)
    exact hperm.map _
  · have h1 := select_topics_length_le sample uid Hs
      (sorted_competencies (groupRows raws)) dist 1
    have h2 := calculate_topics_distribution_sum _ dist hdist
    omega

/-- C5 witness: a five-competency specialization whose top competency offers
only one topic against a target of two; the run succeeds with 7 rows and the
under-provisioned competency contributes exactly its single topic. -/
theorem generate_test_topics_clamps_underprovisioned_witness :
    generate_test_topics (fun xs k => xs.take k) 7 9
        [⟨1, "A", 90, 11, "a1"⟩, ⟨2, "B", 80, 21, "b1"⟩, ⟨2, "B", 80, 22, "b2"⟩,
         ⟨3, "C", 70, 31, "c1"⟩, ⟨3, "C", 70, 32, "c2"⟩, ⟨4, "D", 60, 41, "d1"⟩,
         ⟨5, "E", 50, 51, "e1"⟩]
      = Except.ok [⟨7, 11, 1, 1⟩, ⟨7, 21, 2, 2⟩, ⟨7, 22, 2, 3⟩, ⟨7, 31, 3, 4⟩,
          ⟨7, 32, 3, 5⟩, ⟨7, 41, 4, 6⟩, ⟨7, 51, 5, 7⟩] ∧
    ((([⟨7, 11, 1, 1⟩, ⟨7, 21, 2, 2⟩, ⟨7, 22, 2, 3⟩, ⟨7, 31, 3, 4⟩, ⟨7, 32, 3, 5⟩,
        ⟨7, 41, 4, 6⟩, ⟨7, 51, 5, 7⟩] : List SelectedTopicRow).filter
          (fun r => r.competency_id == 1)).map (fun r => r.topic_id)).Perm [11] ∧
    ([⟨7, 11, 1, 1⟩, ⟨7, 21, 2, 2⟩, ⟨7, 22, 2, 3⟩, ⟨7, 31, 3, 4⟩, ⟨7, 32, 3, 5⟩,
      ⟨7, 41, 4, 6⟩, ⟨7, 51, 5, 7⟩] : List SelectedTopicRow).length ≤ 8 := by
  obtain ⟨rows, hok, hperm, hlen⟩ := generate_test_topics_clamps_underprovisioned
    (fun xs k => xs.take k) 7 9
    [⟨1, "A", 90, 11, "a1"⟩, ⟨2, "B", 80, 21, "b1"⟩, ⟨2, "B", 80, 22, "b2"⟩,
     ⟨3, "C", 70, 31, "c1"⟩, ⟨3, "C", 70, 32, "c2"⟩, ⟨4, "D", 60, 41, "d1"⟩,
     ⟨5, "E", 50, 51, "e1"⟩]
    [2, 2, 2, 1, 1] 0 ⟨1, "A", 90, [⟨11, "a1"⟩]⟩ 2
    (fun xs k hk => by simp [List.length_take]; omega)
    (fun xs k _ => (List.take_sublist k xs).subperm)
    (by simp) rfl rfl rfl (by decide)
  have hok2 : generate_test_topics (fun xs k => xs.take k) 7 9
      [⟨1, "A", 90, 11, "a1"⟩, ⟨2, "B", 80, 21, "b1"⟩, ⟨2, "B", 80, 22, "b2"⟩,
       ⟨3, "C", 70, 31, "c1"⟩, ⟨3, "C", 70, 32, "c2"⟩, ⟨4, "D", 60, 41, "d1"⟩,
       ⟨5, "E", 50, 51, "e1"⟩]
      = Except.ok [⟨7, 11, 1, 1⟩, ⟨7, 21, 2, 2⟩, ⟨7, 22, 2, 3⟩, ⟨7, 31, 3, 4⟩,
          ⟨7, 32, 3, 5⟩, ⟨7, 41, 4, 6⟩, ⟨7, 51, 5, 7⟩] := rfl
  obtain rfl := Except.ok.inj (hok.symm.trans hok2)
  exact ⟨hok2, hperm, hlen⟩

/-- C6 witness: re-submitting an answered question (stored answer `2`,
correct) with a different option `4` leaves the stored answer untouched. -/
theorem submit_answer_duplicate_noop_witness :
    (submit_answer ⟨[⟨1, 10, 5, 3, 24⟩], [⟨1, 100, 2, true⟩], [⟨100, 2⟩], [], 2⟩
        10 1 100 4).toOption.map (fun p => p.1.answers)
      = some [⟨1, 100, 2, true⟩] ∧
    (submit_answer ⟨[⟨1, 10, 5, 3, 24⟩], [⟨1, 100, 2, true⟩], [⟨100, 2⟩], [], 2⟩
        10 1 100 4).toOption.map
        (fun p => p.1.answers.find? (fun a => a.user_test_id == 1 && a.question_id == 100))
      = some (some ⟨1, 100, 2, true⟩) :=
  submit_answer_duplicate_noop ⟨[⟨1, 10, 5, 3, 24⟩], [⟨1, 100, 2, true⟩], [⟨100, 2⟩], [], 2⟩
    10 1 100 4 ⟨1, 10, 5, 3, 24⟩ ⟨100, 2⟩ ⟨1, 100, 2, true⟩ rfl rfl rfl rfl

/-- C9 witness: a duplicate submission (the pair `(1, 100)` is already
answered) still advances `current_question_number` from 3 to 4. -/
theorem submit_answer_increments_counter_witness :
    (submit_answer ⟨[⟨1, 10, 5, 3, 24⟩], [⟨1, 100, 2, true⟩], [⟨100, 2⟩], [], 2⟩
        10 1 100 4).toOption.map
        (fun p => p.1.tests.find? (fun tr => tr.id == 1))
      = some (some ⟨1, 10, 5, 4, 24⟩) :=
  submit_answer_increments_counter
    ⟨[⟨1, 10, 5, 3, 24⟩], [⟨1, 100, 2, true⟩], [⟨100, 2⟩], [], 2⟩
    10 1 100 4 ⟨1, 10, 5, 3, 24⟩ ⟨100, 2⟩ rfl rfl rfl

/-- C7 witness: user 10 already has test instance 1 for specialization 5;
starting again returns id 1 and the identical store. -/
theorem start_test_idempotent_witness :
    start_test (fun xs k => xs.take k)
        ⟨[⟨1, 10, 5, 3, 24⟩], [⟨1, 100, 2, true⟩], [⟨100, 2⟩], [], 2⟩ 10 5 []
      = Except.ok (⟨[⟨1, 10, 5, 3, 24⟩], [⟨1, 100, 2, true⟩], [⟨100, 2⟩], [], 2⟩, 1) :=
  start_test_idempotent (fun xs k => xs.take k)
    ⟨[⟨1, 10, 5, 3, 24⟩], [⟨1, 100, 2, true⟩], [⟨100, 2⟩], [], 2⟩ 10 5 []
    ⟨1, 10, 5, 3, 24⟩ rfl
